import Mathlib

/-!
Verification development for the VineHelper notification-monitor
ingestion pipeline.

The definitions below are a shallow embedding of the JavaScript source:

* `ItemsMgr` (scripts/notification_monitor/ItemsMgr.js): the catalog of
  listing records (`items`, a `Map` from ASIN to `{data, element, tile}`),
  with `sortItems`, `updateItemETV`, `updateItemTier`, `addItemData`,
  `storeItemDOMElement`, `markItemUnavailable`, `removeAsin`.
* the service worker: `dataBuffering` (bulk-buffer framing),
  `resetReloadTimer` / the pause branches of `processBroadcastMessage`,
  `connectWebSocket`, and `processLast100Items`.

JavaScript values that can sit in an item-data field (null, strings,
numbers, booleans) are modelled by `JVal`; a field that is absent from an
object is `none` (JS `undefined`).  Numbers are modelled by `Int`: every
value the verified properties exercise is integral, and no property here
depends on non-integral float behaviour.  A JS `Map` is modelled by an
association list in insertion order, which is exactly the iteration
order a `Map` guarantees; `Map.set` on an existing key keeps its
position, on a fresh key appends.  `Array.prototype.sort` with a
consistent comparator is a stable sort, modelled by a stable insertion
sort parameterised by the boolean relation "comparator(a,b) ≤ 0".
-/

namespace VineHelper

/-- JavaScript field values: `null`, strings, numbers, booleans. -/
inductive JVal where
  | null
  | str (s : String)
  | num (n : Int)
  | boolean (b : Bool)
deriving DecidableEq

/-- JavaScript truthiness of a value: `null`, `""`, `0` and `false`
are falsy, everything else truthy. -/
def JVal.truthy : JVal → Bool
  | .null => false
  | .str s => s ≠ ""
  | .num n => n ≠ 0
  | .boolean b => b

/-- Truthiness of a possibly-absent field (JS `undefined` is falsy). -/
def truthyOpt : Option JVal → Bool
  | none => false
  | some v => v.truthy

/-- One item's `data` object.  The fields are the ones the verified
properties touch; each is `Option` because a JS object may simply lack
the key. -/
structure ItemData where
  date : Option JVal
  title : Option JVal
  img_url : Option JVal
  etv_min : Option JVal
  etv_max : Option JVal
  tier : Option JVal
  unavailable : Option JVal
  dateAdded : Option JVal
deriving DecidableEq

/-- An item-data object with no fields present. -/
def emptyData : ItemData :=
  { date := none, title := none, img_url := none, etv_min := none,
    etv_max := none, tier := none, unavailable := none, dateAdded := none }

/-- Object spread `{...oldD, ...newD}`: every field present in `newD`
overwrites the old value, absent fields keep the old value
(ItemsMgr.js lines 140-146). -/
def mergeData (oldD newD : ItemData) : ItemData :=
  { date := newD.date <|> oldD.date,
    title := newD.title <|> oldD.title,
    img_url := newD.img_url <|> oldD.img_url,
    etv_min := newD.etv_min <|> oldD.etv_min,
    etv_max := newD.etv_max <|> oldD.etv_max,
    tier := newD.tier <|> oldD.tier,
    unavailable := newD.unavailable <|> oldD.unavailable,
    dateAdded := newD.dateAdded <|> oldD.dateAdded }

/-- ItemsMgr.js lines 150-156: convert an empty-string `etv_min` /
`etv_max` back to null after an add or update. -/
def normalizeEtvData (d : ItemData) : ItemData :=
  let d1 := if d.etv_min = some (.str "") then { d with etv_min := some .null } else d
  if d1.etv_max = some (.str "") then { d1 with etv_max := some .null } else d1

/-- An entry of the `items` map: `{data, element, tile}`.  DOM elements
and tiles are opaque handles, modelled by `Nat`. -/
structure Item where
  data : ItemData
  element : Option Nat
  tile : Option Nat
deriving DecidableEq

/-- The `ItemsMgr` state: the `imageUrls` set (insertion-ordered, used
only for duplicate-thumbnail detection) and the `items` map. -/
structure Catalog where
  imageUrls : List JVal
  items : List (String × Item)
deriving DecidableEq

/-- The settings the catalog reads:
`notification.monitor.sortType` and `notification.monitor.hideDuplicateThumbnail`. -/
structure Settings where
  sortType : String
  hideDuplicateThumbnail : Bool

/-- Map lookup by key (`this.items.get(asin)` / `has`): first entry with
the given key. -/
def findPair (k : String) (l : List (String × Item)) : Option (String × Item) :=
  l.find? (fun p => decide (p.1 = k))

/-- `Map.set`: replace the entry at an existing key in place, or append
a new entry at the end. -/
def setPair (k : String) (v : Item) : List (String × Item) → List (String × Item)
  | [] => [(k, v)]
  | p :: rest => if p.1 = k then (k, v) :: rest else p :: setPair k v rest

/-- Apply `f` to the item stored at key `k` (mutation of the object
returned by `Map.get`). -/
def mapPair (k : String) (f : Item → Item) (l : List (String × Item)) :
    List (String × Item) :=
  l.map (fun p => if p.1 = k then (p.1, f p.2) else p)

/-- Stable insertion: `x` moves past `y` only when `y` is strictly
earlier in the order (`le y x` and not `le x y`), so elements that
compare equal keep their original relative order, as JS stable sort
does. -/
def insertLe {α : Type} (le : α → α → Bool) (x : α) : List α → List α
  | [] => [x]
  | y :: ys => if le y x && !(le x y) then y :: insertLe le x ys else x :: y :: ys

/-- Stable sort by the boolean relation "comparator(a,b) ≤ 0". -/
def sortLe {α : Type} (le : α → α → Bool) : List α → List α
  | [] => []
  | x :: xs => insertLe le x (sortLe le xs)

/-- ItemsMgr.js lines 24-30: the sort rebuilds each entry from
`{asin, data, element}` only, so the `tile` property is dropped. -/
def dropTile (p : String × Item) : String × Item :=
  (p.1, { data := p.2.data, element := p.2.element, tile := none })

/-- `x || d` for an ETV field: the field's value if truthy, otherwise
the numeric sentinel `d` (ItemsMgr.js lines 43-44 and 49-50). -/
def jsOrNum (v : Option JVal) (d : Int) : JVal :=
  match v with
  | some w => if w.truthy then w else .num d
  | none => .num d

/-- `parseFloat` on the fragment the verified properties exercise:
numbers parse to themselves.  A truthy non-numeric value never arises
on the inputs of any property below, so its parse is not modelled
further. -/
def parseFloatJ : JVal → Int
  | .num n => n
  | _ => 0

/-- Numeric view of the `date` field for the date comparators; the
verified properties only exercise numeric dates. -/
def dateNum (v : Option JVal) : Int :=
  match v with
  | some (.num n) => n
  | _ => 0

/-- The sort comparator of ItemsMgr.js lines 33-53, expressed as
"comparator(a,b) ≤ 0".  The default branch is price-descending. -/
def cmpLe (s : Settings) (a b : String × Item) : Bool :=
  if s.sortType = "date_asc" then
    decide (dateNum a.2.data.date ≤ dateNum b.2.data.date)
  else if s.sortType = "date_desc" then
    decide (dateNum b.2.data.date ≤ dateNum a.2.data.date)
  else if s.sortType = "price_asc" then
    decide (parseFloatJ (jsOrNum a.2.data.etv_min 99999999) ≤
      parseFloatJ (jsOrNum b.2.data.etv_min 99999999))
  else
    decide (parseFloatJ (jsOrNum b.2.data.etv_min (-1)) ≤
      parseFloatJ (jsOrNum a.2.data.etv_min (-1)))

/-- `sortItems` (ItemsMgr.js lines 19-67): no-op on an empty map,
otherwise rebuild the map from the entries (dropping `tile`) sorted
stably by the configured comparator. -/
def sortItems (s : Settings) (c : Catalog) : Catalog :=
  if c.items.length = 0 then c
  else { c with items := sortLe (cmpLe s) (c.items.map dropTile) }

/-- `etv < item.data.etv_min` where `etv` is a number; only consulted
when the field is truthy, which on the inputs of the verified
properties means a nonzero number. -/
def ltNumJ (etv : Int) (v : Option JVal) : Bool :=
  match v with
  | some (.num m) => decide (etv < m)
  | _ => false

/-- `etv > item.data.etv_max`, same reading as `ltNumJ`. -/
def gtNumJ (etv : Int) (v : Option JVal) : Bool :=
  match v with
  | some (.num m) => decide (m < etv)
  | _ => false

/-- ItemsMgr.js lines 82-84: `if (!item.data.etv_min || etv < item.data.etv_min)
item.data.etv_min = etv`. -/
def stepEtvMin (v : Option JVal) (etv : Int) : Option JVal :=
  if !truthyOpt v || ltNumJ etv v then some (.num etv) else v

/-- ItemsMgr.js lines 86-88: `if (!item.data.etv_max || etv > item.data.etv_max)
item.data.etv_max = etv`. -/
def stepEtvMax (v : Option JVal) (etv : Int) : Option JVal :=
  if !truthyOpt v || gtNumJ etv v then some (.num etv) else v

/-- Both bound mutations of ItemsMgr.js lines 82-88 applied to the
item's data. -/
def stepItemData (d : ItemData) (etv : Int) : ItemData :=
  { d with etv_min := stepEtvMin d.etv_min etv, etv_max := stepEtvMax d.etv_max etv }

/-- `updateItemETV` (ItemsMgr.js lines 74-96): false if the ASIN is
absent; otherwise update both bounds, store, and re-sort. -/
def updateItemETV (s : Settings) (c : Catalog) (asin : String) (etv : Int) :
    Bool × Catalog :=
  match findPair asin c.items with
  | none => (false, c)
  | some p =>
    let it : Item :=
      { data := stepItemData p.2.data etv, element := p.2.element, tile := p.2.tile }
    (true, sortItems s { c with items := setPair asin it c.items })

/-- `updateItemTier` (ItemsMgr.js lines 104-115): last-write-wins on the
`tier` field, then re-sort. -/
def updateItemTier (s : Settings) (c : Catalog) (asin : String) (tier : JVal) :
    Bool × Catalog :=
  match findPair asin c.items with
  | none => (false, c)
  | some p =>
    let it : Item := { p.2 with data := { p.2.data with tier := some tier } }
    (true, sortItems s { c with items := setPair asin it c.items })

/-- The `Set.add` of `imageUrls`. -/
def addImageUrl (u : JVal) (l : List JVal) : List JVal :=
  if u ∈ l then l else l ++ [u]

/-- ItemsMgr.js lines 150-156 as a mutation of the stored item object. -/
def normItemEtv (it : Item) : Item := { it with data := normalizeEtvData it.data }

/-- `addItemData` (ItemsMgr.js lines 122-168).  Fresh ASIN: store the
supplied fields with `dateAdded` stamped, element null.  Seen ASIN:
spread-merge the new fields over the old data, keep the element
(the `tile` property is not copied by the rebuild on lines 140-146).
Then normalize empty-string ETV bounds to null, record the image URL
when duplicate detection is on, and re-sort.  Returns whether the item
was newly added. -/
def addItemData (s : Settings) (now : Int) (c : Catalog) (asin : String)
    (itemData : ItemData) : Bool × Catalog :=
  let items1 :=
    match findPair asin c.items with
    | none =>
      c.items ++ [(asin, { data := { itemData with dateAdded := some (.num now) },
                           element := none, tile := none })]
    | some p =>
      setPair asin { data := mergeData p.2.data itemData,
                     element := p.2.element, tile := none } c.items
  let items2 := mapPair asin normItemEtv items1
  let urls :=
    match itemData.img_url with
    | some w => if w.truthy && s.hideDuplicateThumbnail
                then addImageUrl w c.imageUrls else c.imageUrls
    | none => c.imageUrls
  ((findPair asin c.items).isNone,
    sortItems s { imageUrls := urls, items := items2 })

/-- `storeItemDOMElement` (ItemsMgr.js lines 176-188): throws if the
ASIN is absent; otherwise stores the element (and a tile built from
it) and reports whether the item was already marked unavailable
(`item.data.unavailable === true`). -/
def storeItemDOMElement (c : Catalog) (asin : String) (element : Nat) :
    Except String (Bool × Catalog) :=
  match findPair asin c.items with
  | some p =>
    let it : Item := { data := p.2.data, element := some element, tile := some element }
    .ok (decide (p.2.data.unavailable = some (.boolean true)),
         { c with items := setPair asin it c.items })
  | none => .error "Item not found in items map"

/-- `markItemUnavailable` (ItemsMgr.js lines 194-200): silently does
nothing when the ASIN is absent. -/
def markItemUnavailable (c : Catalog) (asin : String) : Catalog :=
  match findPair asin c.items with
  | some p =>
    let it : Item :=
      { p.2 with data := { p.2.data with unavailable := some (.boolean true) } }
    { c with items := setPair asin it c.items }
  | none => c

/-- `removeAsin` (ItemsMgr.js lines 219-221). -/
def removeAsin (c : Catalog) (asin : String) : Catalog :=
  { c with items := c.items.filter (fun p => !(decide (p.1 = asin))) }

/-- Keys of the catalog are pairwise distinct — the `Map` invariant
every reachable catalog satisfies. -/
def NodupKeys (c : Catalog) : Prop := (c.items.map Prod.fst).Nodup

/-- An event flowing through the service worker's buffer; `type` is the
JS `data.type` discriminator, `payload` stands for the rest of the
event object. -/
structure BufEvent where
  type : String
  payload : Nat
deriving DecidableEq

/-- What `sendMessageToAllTabs` receives from `dataBuffering`: either a
passed-through event or the `{type: "fetch100", data: dataBuffer}`
batch. -/
inductive TabMsg where
  | single (e : BufEvent)
  | fetch100Batch (batch : List BufEvent)
deriving DecidableEq

/-- Service-worker buffer state: the `fetch100` flag, the `dataBuffer`
array, and the outbox of messages handed to `sendMessageToAllTabs`. -/
structure BufState where
  fetch100 : Bool
  dataBuffer : List BufEvent
  sent : List TabMsg
deriving DecidableEq

/-- `dataBuffering` (service worker lines 255-266): pass events through
when `fetch100` is off; otherwise push the event onto the buffer, and
when the event is the `fetchRecentItemsEnd` sentinel, emit the whole
buffer (the just-pushed sentinel included) as one `fetch100` batch,
clear the buffer and drop back to passthrough. -/
def dataBuffering (s : BufState) (data : BufEvent) : BufState :=
  if !s.fetch100 then { s with sent := s.sent ++ [.single data] }
  else
    let buf := s.dataBuffer ++ [data]
    if data.type = "fetchRecentItemsEnd" then
      { fetch100 := false, dataBuffer := [], sent := s.sent ++ [.fetch100Batch buf] }
    else { s with fetch100 := true, dataBuffer := buf }

/-- Platform-timer state of the service worker: the set of pending
timeouts `(id, delay)` the platform has scheduled and not yet fired or
cleared, the `reloadTimer` variable, and the next fresh timer id. -/
structure TimerState where
  pending : List (Nat × Int)
  reloadTimer : Option Nat
  nextId : Nat
deriving DecidableEq

/-- `resetReloadTimer` (service worker lines 529-538):
`reloadTimer = setTimeout(cb, interval)` — a fresh platform timer is
scheduled and its id overwrites the variable.  No `clearTimeout` is
issued for a previously stored timer before the assignment, so any
already-pending timer stays pending.  (The installed callback clears
and re-arms itself once it fires; only installation-time behaviour is
modelled here.) -/
def resetReloadTimer (s : TimerState) (interval : Int) : TimerState :=
  { pending := s.pending ++ [(s.nextId, interval)],
    reloadTimer := some s.nextId,
    nextId := s.nextId + 1 }

/-- The forced-pause branches of `processBroadcastMessage` (service
worker lines 337-348): a dog page installs a 24-hour cooldown, a
captcha or login page a 1-hour cooldown, via `resetReloadTimer`. -/
def processPauseMessage (s : TimerState) (msgType : String) : TimerState :=
  if msgType = "dogpage" then resetReloadTimer s (1000 * 60 * 60 * 24)
  else if msgType = "captchapage" then resetReloadTimer s (1000 * 60 * 60)
  else if msgType = "loginpage" then resetReloadTimer s (1000 * 60 * 60)
  else s

/-- Connection-manager state (service worker lines 384-419): the
settings flag, whether a socket object exists and is connected, the
resolved country code, the `socket_connecting` latch, and a counter of
transport-level connection attempts (`io.connect` calls). -/
structure WSState where
  notificationActive : Bool
  socketExists : Bool
  socketConnected : Bool
  countryCode : Option String
  socketConnecting : Bool
  connectAttempts : Nat
deriving DecidableEq

/-- `connectWebSocket` (service worker lines 388-419): bail out when
notifications are off, when `socket?.connected`, when the country code
is unknown, or when a connection is already in flight; otherwise latch
`socket_connecting` and make one `io.connect` attempt (the new socket
starts unconnected). -/
def connectWebSocket (s : WSState) : WSState :=
  if !s.notificationActive then s
  else if s.socketExists && s.socketConnected then s
  else if s.countryCode.isNone then s
  else if s.socketConnecting then s
  else { s with socketConnecting := true, socketExists := true,
                socketConnected := false,
                connectAttempts := s.connectAttempts + 1 }

/-- A product of the bulk `last100` response, restricted to the fields
`processLast100Items` consults. -/
structure Product where
  title : String
  img_url : String
  date : Int
  asin : String
deriving DecidableEq

/-- What `myStream.input` receives during the bulk replay. -/
inductive StreamEvent where
  | newItem (p : Product)
  | fetchRecentItemsEnd
deriving DecidableEq

/-- The comparator of service worker lines 806-810, `dateB - dateA`
(newest first), as "comparator(a,b) ≤ 0". -/
def productDescLe (a b : Product) : Bool := decide (b.date ≤ a.date)

/-- `processLast100Items` (service worker lines 805-860): sort the
products newest-first, then walk the array from the last index down
(so oldest first), skipping any product whose title or image URL is
the empty string, feeding the rest to the stream, and finish with the
`fetchRecentItemsEnd` sentinel.  (The function also raises the
`fetch100` buffering flag before the replay, which is the `BufState`
flag above.) -/
def processLast100Items (arrProducts : List Product) : List StreamEvent :=
  (((sortLe productDescLe arrProducts).reverse.filter
      (fun p => !(decide (p.img_url = "") || decide (p.title = "")))).map
    StreamEvent.newItem) ++ [StreamEvent.fetchRecentItemsEnd]

/-! Association-list lemmas for the `items` map. -/

theorem findPair_cons (k : String) (p : String × Item) (l : List (String × Item)) :
    findPair k (p :: l) = if p.1 = k then some p else findPair k l := by
  by_cases h : p.1 = k <;> simp [findPair, List.find?_cons, h]

theorem findPair_setPair_self (k : String) (v : Item) (l : List (String × Item)) :
    findPair k (setPair k v l) = some (k, v) := by
  induction l with
  | nil => simp [setPair, findPair_cons, findPair]
  | cons p rest ih =>
    by_cases h : p.1 = k
    · simp [setPair, h, findPair_cons]
    · simp [setPair, h, findPair_cons, ih]

theorem findPair_setPair_ne (k k' : String) (v : Item) (l : List (String × Item))
    (h : k' ≠ k) : findPair k' (setPair k v l) = findPair k' l := by
  have hk : ¬(k = k') := fun hh => h hh.symm
  induction l with
  | nil => simp [setPair, findPair_cons, findPair, hk]
  | cons p rest ih =>
    by_cases hp : p.1 = k
    · subst hp
      simp [setPair, findPair_cons, hk]
    · simp [setPair, hp, findPair_cons, ih]

theorem keys_setPair_of_mem (k : String) (v : Item) (l : List (String × Item))
    (h : k ∈ l.map Prod.fst) :
    (setPair k v l).map Prod.fst = l.map Prod.fst := by
  induction l with
  | nil => simp at h
  | cons p rest ih =>
    by_cases hp : p.1 = k
    · simp [setPair, hp]
    · rcases List.mem_cons.mp h with h1 | h1
      · exact absurd h1.symm hp
      · simp [setPair, hp, ih h1]

theorem keys_setPair_of_not_mem (k : String) (v : Item) (l : List (String × Item))
    (h : k ∉ l.map Prod.fst) :
    (setPair k v l).map Prod.fst = l.map Prod.fst ++ [k] := by
  induction l with
  | nil => simp [setPair]
  | cons p rest ih =>
    have h1 : ¬(p.1 = k) := fun hh => h (by simp [hh.symm])
    have h2 : k ∉ rest.map Prod.fst := fun hh => h (by simp [hh])
    simp [setPair, h1, ih h2]

theorem setPair_setPair (k : String) (v w : Item) (l : List (String × Item)) :
    setPair k w (setPair k v l) = setPair k w l := by
  induction l with
  | nil => simp [setPair]
  | cons p rest ih =>
    by_cases hp : p.1 = k
    · simp [setPair, hp]
    · simp [setPair, hp, ih]

theorem findPair_mapPair_self (k : String) (f : Item → Item) (l : List (String × Item)) :
    findPair k (mapPair k f l) = (findPair k l).map (fun p => (p.1, f p.2)) := by
  induction l with
  | nil => simp [mapPair, findPair]
  | cons p rest ih =>
    by_cases hp : p.1 = k
    · simp [mapPair, hp, findPair_cons]
    · simpa [mapPair, hp, findPair_cons] using ih

theorem findPair_mapPair_ne (k k' : String) (f : Item → Item) (l : List (String × Item))
    (h : k' ≠ k) : findPair k' (mapPair k f l) = findPair k' l := by
  have hkk : ¬(k = k') := fun hh => h hh.symm
  induction l with
  | nil => simp [mapPair, findPair]
  | cons p rest ih =>
    by_cases hp : p.1 = k
    · have hne : ¬(p.1 = k') := by
        rw [hp]
        exact hkk
      simp only [mapPair, List.map_cons] at ih ⊢
      rw [if_pos hp]
      rw [findPair_cons, findPair_cons]
      simp only [hne, if_false]
      exact ih
    · simp only [mapPair, List.map_cons] at ih ⊢
      rw [if_neg hp]
      rw [findPair_cons, findPair_cons]
      by_cases hq : p.1 = k' <;> simp [hq, ih]

theorem keys_mapPair (k : String) (f : Item → Item) (l : List (String × Item)) :
    (mapPair k f l).map Prod.fst = l.map Prod.fst := by
  induction l with
  | nil => simp [mapPair]
  | cons p rest ih =>
    by_cases hp : p.1 = k <;> simpa [mapPair, hp] using ih

theorem findPair_append_right (k : String) (l l' : List (String × Item))
    (h : findPair k l = none) : findPair k (l ++ l') = findPair k l' := by
  induction l with
  | nil => simp
  | cons p rest ih =>
    rw [findPair_cons] at h
    by_cases hp : p.1 = k
    · simp [hp] at h
    · simp [hp] at h
      simp [findPair_cons, hp, ih h]

theorem findPair_eq_none_iff (k : String) (l : List (String × Item)) :
    findPair k l = none ↔ k ∉ l.map Prod.fst := by
  simp only [findPair, List.find?_eq_none, decide_eq_true_eq, List.mem_map]
  constructor
  · rintro h ⟨p, hp, rfl⟩
    exact h p hp rfl
  · rintro h p hp rfl
    exact h ⟨p, hp, rfl⟩

theorem findPair_mem (k : String) (l : List (String × Item)) (p : String × Item)
    (h : findPair k l = some p) : p ∈ l ∧ p.1 = k := by
  refine ⟨List.mem_of_find?_eq_some h, ?_⟩
  have := List.find?_some h
  simpa using this

theorem findPair_of_mem_nodup (k : String) (l : List (String × Item)) (p : String × Item)
    (hn : (l.map Prod.fst).Nodup) (hp : p ∈ l) (hk : p.1 = k) :
    findPair k l = some p := by
  induction l with
  | nil => simp at hp
  | cons q rest ih =>
    rw [List.map_cons, List.nodup_cons] at hn
    rcases List.mem_cons.mp hp with h | h
    · subst h
      simp [findPair_cons, hk]
    · have hq : q.1 ≠ k := by
        intro hqk
        rw [hqk, ← hk] at hn
        exact hn.1 (List.mem_map_of_mem Prod.fst h)
      simp [findPair_cons, hq, ih hn.2 h]

theorem findPair_perm (k : String) (l l' : List (String × Item))
    (h : l.Perm l') (hn : (l.map Prod.fst).Nodup) :
    findPair k l = findPair k l' := by
  cases hl : findPair k l with
  | some p =>
    have hm := findPair_mem k l p hl
    exact (findPair_of_mem_nodup k l' p (((h.map Prod.fst).nodup_iff).mp hn)
      (h.mem_iff.mp hm.1) hm.2).symm
  | none =>
    cases hl' : findPair k l' with
    | none => rfl
    | some p =>
      have hm := findPair_mem k l' p hl'
      have : p ∈ l := h.mem_iff.mpr hm.1
      have := findPair_of_mem_nodup k l p hn this hm.2
      rw [this] at hl
      exact absurd hl (by simp)

/-! Stable-sort lemmas. -/

theorem insertLe_perm {α : Type} (le : α → α → Bool) (x : α) (l : List α) :
    (insertLe le x l).Perm (x :: l) := by
  induction l with
  | nil => simp [insertLe]
  | cons y ys ih =>
    rw [insertLe]
    by_cases h : (le y x && !(le x y)) = true
    · rw [if_pos h]
      exact (ih.cons y).trans (List.Perm.swap x y ys)
    · rw [if_neg h]

theorem sortLe_perm {α : Type} (le : α → α → Bool) (l : List α) :
    (sortLe le l).Perm l := by
  induction l with
  | nil => simp [sortLe]
  | cons x xs ih =>
    exact (insertLe_perm le x (sortLe le xs)).trans (ih.cons x)

theorem pairwise_insertLe {α : Type} (le : α → α → Bool)
    (htot : ∀ a b, le a b = true ∨ le b a = true)
    (htrans : ∀ a b c, le a b = true → le b c = true → le a c = true)
    (x : α) (l : List α) (h : l.Pairwise (fun a b => le a b = true)) :
    (insertLe le x l).Pairwise (fun a b => le a b = true) := by
  induction l with
  | nil => simp [insertLe]
  | cons y ys ih =>
    rw [List.pairwise_cons] at h
    rw [insertLe]
    by_cases hc : (le y x && !(le x y)) = true
    · rw [if_pos hc]
      refine List.pairwise_cons.mpr ⟨?_, ih h.2⟩
      intro z hz
      rcases List.mem_cons.mp ((insertLe_perm le x ys).mem_iff.mp hz) with hz1 | hz1
      · subst hz1
        have hc2 := hc
        simp only [Bool.and_eq_true] at hc2
        exact hc2.1
      · exact h.1 z hz1
    · rw [if_neg hc]
      have hxy : le x y = true := by
        rcases htot x y with h1 | h1
        · exact h1
        · by_cases h2 : le x y = true
          · exact h2
          · exfalso
            apply hc
            have h3 : le x y = false := by
              revert h2
              cases le x y <;> simp
            rw [h1, h3]
            rfl
      refine List.pairwise_cons.mpr ⟨?_, List.pairwise_cons.mpr h⟩
      intro z hz
      rcases List.mem_cons.mp hz with hz1 | hz1
      · subst hz1
        exact hxy
      · exact htrans x y z hxy (h.1 z hz1)

theorem pairwise_sortLe {α : Type} (le : α → α → Bool)
    (htot : ∀ a b, le a b = true ∨ le b a = true)
    (htrans : ∀ a b c, le a b = true → le b c = true → le a c = true)
    (l : List α) : (sortLe le l).Pairwise (fun a b => le a b = true) := by
  induction l with
  | nil => simp [sortLe]
  | cons x xs ih => exact pairwise_insertLe le htot htrans x (sortLe le xs) ih

/-! Lemmas about `sortItems`. -/

theorem findPair_map_dropTile (k : String) (l : List (String × Item)) :
    findPair k (l.map dropTile) = (findPair k l).map dropTile := by
  induction l with
  | nil => simp [findPair]
  | cons p rest ih =>
    by_cases hp : p.1 = k
    · simp [findPair_cons, dropTile, hp]
    · simp only [List.map_cons]
      rw [findPair_cons, findPair_cons]
      simp [dropTile, hp, ih]

theorem keys_map_dropTile (l : List (String × Item)) :
    (l.map dropTile).map Prod.fst = l.map Prod.fst := by
  induction l with
  | nil => rfl
  | cons p rest ih => simp [dropTile, ih]

theorem findPair_sortItems (s : Settings) (c : Catalog) (k : String)
    (hn : NodupKeys c) :
    findPair k (sortItems s c).items = (findPair k c.items).map dropTile := by
  rw [sortItems]
  by_cases h0 : c.items.length = 0
  · rw [List.length_eq_zero] at h0
    simp [h0, findPair]
  · simp only [h0, if_false]
    have hperm : (sortLe (cmpLe s) (c.items.map dropTile)).Perm (c.items.map dropTile) :=
      sortLe_perm _ _
    have hnd : ((sortLe (cmpLe s) (c.items.map dropTile)).map Prod.fst).Nodup := by
      refine ((hperm.map Prod.fst).nodup_iff).mpr ?_
      rw [keys_map_dropTile]
      exact hn
    rw [findPair_perm k _ _ hperm hnd, findPair_map_dropTile]

theorem nodupKeys_sortItems (s : Settings) (c : Catalog) (hn : NodupKeys c) :
    NodupKeys (sortItems s c) := by
  rw [sortItems]
  by_cases h0 : c.items.length = 0
  · simpa [h0] using hn
  · simp only [h0, if_false]
    show ((sortLe (cmpLe s) (c.items.map dropTile)).map Prod.fst).Nodup
    refine (((sortLe_perm (cmpLe s) (c.items.map dropTile)).map Prod.fst).nodup_iff).mpr ?_
    rw [keys_map_dropTile]
    exact hn

/-! Characterisations of the catalog operations. -/

theorem mem_keys_of_findPair (k : String) (l : List (String × Item)) (p : String × Item)
    (h : findPair k l = some p) : k ∈ l.map Prod.fst := by
  rcases findPair_mem k l p h with ⟨h1, h2⟩
  rw [← h2]
  exact List.mem_map_of_mem Prod.fst h1

theorem updateItemETV_found (s : Settings) (c : Catalog) (asin : String) (etv : Int)
    (p : String × Item) (hn : NodupKeys c) (h : findPair asin c.items = some p) :
    (updateItemETV s c asin etv).1 = true ∧
    findPair asin ((updateItemETV s c asin etv).2).items =
      some (asin, ⟨stepItemData p.2.data etv, p.2.element, none⟩) ∧
    NodupKeys (updateItemETV s c asin etv).2 ∧
    (∀ k, k ≠ asin →
      findPair k ((updateItemETV s c asin etv).2).items =
        (findPair k c.items).map dropTile) := by
  have hmem : asin ∈ c.items.map Prod.fst := mem_keys_of_findPair asin c.items p h
  simp only [updateItemETV, h]
  have hn2 : ∀ it : Item, NodupKeys { c with items := setPair asin it c.items } := by
    intro it
    show ((setPair asin it c.items).map Prod.fst).Nodup
    rw [keys_setPair_of_mem asin it c.items hmem]
    exact hn
  refine ⟨by trivial, ?_, ?_, ?_⟩
  · rw [findPair_sortItems s _ asin (hn2 _)]
    show (findPair asin (setPair asin _ c.items)).map dropTile = _
    rw [findPair_setPair_self]
    simp [dropTile]
  · exact nodupKeys_sortItems s _ (hn2 _)
  · intro k hk
    rw [findPair_sortItems s _ k (hn2 _)]
    show (findPair k (setPair asin _ c.items)).map dropTile = _
    rw [findPair_setPair_ne asin k _ c.items hk]

theorem catalog_items_mk (u : List JVal) (l : List (String × Item)) :
    (Catalog.mk u l).items = l := rfl

theorem addItemData_seen (s : Settings) (now : Int) (c : Catalog) (asin : String)
    (d : ItemData) (p : String × Item) (hn : NodupKeys c)
    (h : findPair asin c.items = some p) :
    (addItemData s now c asin d).1 = false ∧
    findPair asin ((addItemData s now c asin d).2).items =
      some (asin, ⟨normalizeEtvData (mergeData p.2.data d), p.2.element, none⟩) ∧
    NodupKeys (addItemData s now c asin d).2 ∧
    (∀ k, k ≠ asin →
      findPair k ((addItemData s now c asin d).2).items =
        (findPair k c.items).map dropTile) := by
  have hmem : asin ∈ c.items.map Prod.fst := mem_keys_of_findPair asin c.items p h
  simp only [addItemData, h]
  have hkeys : ∀ it : Item,
      ((mapPair asin normItemEtv (setPair asin it c.items)).map Prod.fst) =
        c.items.map Prod.fst := by
    intro it
    rw [keys_mapPair, keys_setPair_of_mem asin it c.items hmem]
  have hn2 : ∀ (urls : List JVal) (it : Item),
      NodupKeys ⟨urls, mapPair asin normItemEtv (setPair asin it c.items)⟩ := by
    intro urls it
    have hx : ((mapPair asin normItemEtv (setPair asin it c.items)).map Prod.fst).Nodup := by
      rw [hkeys]
      exact hn
    exact hx
  refine ⟨rfl, ?_, ?_, ?_⟩
  · rw [findPair_sortItems s _ asin (hn2 _ _), catalog_items_mk,
      findPair_mapPair_self, findPair_setPair_self]
    simp [dropTile, normItemEtv]
  · exact nodupKeys_sortItems s _ (hn2 _ _)
  · intro k hk
    rw [findPair_sortItems s _ k (hn2 _ _), catalog_items_mk,
      findPair_mapPair_ne asin k _ _ hk, findPair_setPair_ne asin k _ c.items hk]

theorem addItemData_fresh (s : Settings) (now : Int) (c : Catalog) (asin : String)
    (d : ItemData) (hn : NodupKeys c) (h : findPair asin c.items = none) :
    (addItemData s now c asin d).1 = true ∧
    findPair asin ((addItemData s now c asin d).2).items =
      some (asin, ⟨normalizeEtvData { d with dateAdded := some (.num now) }, none, none⟩) ∧
    NodupKeys (addItemData s now c asin d).2 := by
  have hnotmem : asin ∉ c.items.map Prod.fst := (findPair_eq_none_iff asin c.items).mp h
  simp only [addItemData, h]
  have hfind1 : ∀ it : Item, findPair asin (c.items ++ [(asin, it)]) = some (asin, it) := by
    intro it
    rw [findPair_append_right asin c.items _ h]
    simp [findPair_cons]
  have hn2 : ∀ (urls : List JVal) (it : Item),
      NodupKeys ⟨urls, mapPair asin normItemEtv (c.items ++ [(asin, it)])⟩ := by
    intro urls it
    have hx : ((mapPair asin normItemEtv (c.items ++ [(asin, it)])).map Prod.fst).Nodup := by
      rw [keys_mapPair]
      rw [List.map_append, List.nodup_append]
      exact ⟨hn, List.nodup_singleton asin, by simpa using hnotmem⟩
    exact hx
  refine ⟨rfl, ?_, ?_⟩
  · rw [findPair_sortItems s _ asin (hn2 _ _), catalog_items_mk,
      findPair_mapPair_self, hfind1]
    simp [dropTile, normItemEtv]
  · exact nodupKeys_sortItems s _ (hn2 _ _)

/-! Behaviour of the ETV bound mutations. -/

theorem stepEtvMin_absent (v : Option JVal) (etv : Int) (h : truthyOpt v = false) :
    stepEtvMin v etv = some (.num etv) := by
  simp [stepEtvMin, h]

theorem stepEtvMax_absent (v : Option JVal) (etv : Int) (h : truthyOpt v = false) :
    stepEtvMax v etv = some (.num etv) := by
  simp [stepEtvMax, h]

theorem stepEtvMin_num (a etv : Int) (h : a ≠ 0) :
    stepEtvMin (some (.num a)) etv = some (.num (min a etv)) := by
  rw [stepEtvMin]
  simp only [truthyOpt, JVal.truthy, ltNumJ]
  by_cases hlt : etv < a
  · rw [if_pos (by simp [hlt])]
    rw [min_eq_right (le_of_lt hlt)]
  · rw [if_neg (by simp [hlt, h])]
    rw [min_eq_left (le_of_not_lt hlt)]

theorem stepEtvMax_num (b etv : Int) (h : b ≠ 0) :
    stepEtvMax (some (.num b)) etv = some (.num (max b etv)) := by
  rw [stepEtvMax]
  simp only [truthyOpt, JVal.truthy, gtNumJ]
  by_cases hlt : b < etv
  · rw [if_pos (by simp [hlt])]
    rw [max_eq_right (le_of_lt hlt)]
  · rw [if_neg (by simp [hlt, h])]
    rw [max_eq_left (le_of_not_lt hlt)]

/-- The shapes an ETV bound field takes in any catalog reachable without
a non-numeric, non-empty string being supplied for it: absent, null,
empty string, or a number. -/
def EtvNumOrAbsent (v : Option JVal) : Prop :=
  v = none ∨ v = some .null ∨ v = some (.str "") ∨ ∃ m : Int, v = some (.num m)

theorem stepEtvMin_le (v : Option JVal) (etv : Int) (h : EtvNumOrAbsent v) :
    ∃ a : Int, stepEtvMin v etv = some (.num a) ∧ a ≤ etv := by
  by_cases ht : truthyOpt v = true
  · rcases h with h | h | h | ⟨m, h⟩ <;> subst h <;> simp [truthyOpt, JVal.truthy] at ht
    have hm : m ≠ 0 := by simpa using ht
    rw [stepEtvMin_num m etv hm]
    exact ⟨min m etv, rfl, min_le_right m etv⟩
  · rw [stepEtvMin_absent v etv (by simpa using ht)]
    exact ⟨etv, rfl, le_refl etv⟩

theorem stepEtvMax_ge (v : Option JVal) (etv : Int) (h : EtvNumOrAbsent v) :
    ∃ b : Int, stepEtvMax v etv = some (.num b) ∧ etv ≤ b := by
  by_cases ht : truthyOpt v = true
  · rcases h with h | h | h | ⟨m, h⟩ <;> subst h <;> simp [truthyOpt, JVal.truthy] at ht
    have hm : m ≠ 0 := by simpa using ht
    rw [stepEtvMax_num m etv hm]
    exact ⟨max m etv, rfl, le_max_right m etv⟩
  · rw [stepEtvMax_absent v etv (by simpa using ht)]
    exact ⟨etv, rfl, le_refl etv⟩

/-- Fold a sequence of observed values through `updateItemETV`, the way
a stream of `newETV` events drives the catalog. -/
def applyObs (s : Settings) (asin : String) (c : Catalog) (obs : List Int) : Catalog :=
  obs.foldl (fun c2 e => (updateItemETV s c2 asin e).2) c

theorem applyObs_nil (s : Settings) (asin : String) (c : Catalog) :
    applyObs s asin c [] = c := rfl

theorem applyObs_cons (s : Settings) (asin : String) (c : Catalog) (e : Int)
    (rest : List Int) :
    applyObs s asin c (e :: rest) = applyObs s asin ((updateItemETV s c asin e).2) rest := rfl

theorem applyObs_num (s : Settings) (asin : String) (obs : List Int) :
    ∀ (c : Catalog) (p : String × Item) (a b : Int),
    NodupKeys c → findPair asin c.items = some p →
    p.2.data.etv_min = some (.num a) → p.2.data.etv_max = some (.num b) →
    a ≠ 0 → b ≠ 0 → (∀ e ∈ obs, e ≠ 0) →
    ∃ q : String × Item,
      findPair asin (applyObs s asin c obs).items = some q ∧
      q.2.data.etv_min = some (.num (obs.foldl min a)) ∧
      q.2.data.etv_max = some (.num (obs.foldl max b)) := by
  induction obs with
  | nil =>
    intro c p a b hn h hm hM ha hb hobs
    exact ⟨p, by simpa [applyObs_nil] using h, by simpa using hm, by simpa using hM⟩
  | cons e rest ih =>
    intro c p a b hn h hm hM ha hb hobs
    have he : e ≠ 0 := hobs e (List.mem_cons_self e rest)
    rcases updateItemETV_found s c asin e p hn h with ⟨_, hfind, hnd, _⟩
    have hdata : stepItemData p.2.data e =
        { p.2.data with etv_min := some (.num (min a e)), etv_max := some (.num (max b e)) } := by
      rw [stepItemData, hm, hM, stepEtvMin_num a e ha, stepEtvMax_num b e hb]
    rw [applyObs_cons]
    have hmin0 : min a e ≠ 0 := by
      rcases min_choice a e with hc | hc <;> rw [hc] <;> assumption
    have hmax0 : max b e ≠ 0 := by
      rcases max_choice b e with hc | hc <;> rw [hc] <;> assumption
    have := ih ((updateItemETV s c asin e).2)
      (asin, ⟨stepItemData p.2.data e, p.2.element, none⟩) (min a e) (max b e)
      hnd hfind (by rw [hdata]) (by rw [hdata]) hmin0 hmax0
      (fun x hx => hobs x (List.mem_cons_of_mem e hx))
    simpa [List.foldl_cons] using this

/-! Normalization lemmas. -/

theorem normalizeEtv_min (dd : ItemData) (v : JVal) (h : dd.etv_min = some v)
    (hv : v ≠ .str "") : (normalizeEtvData dd).etv_min = some v := by
  rw [normalizeEtvData]
  have h1 : ¬(dd.etv_min = some (JVal.str "")) := by
    simp [h, hv]
  rw [if_neg h1]
  by_cases h2 : dd.etv_max = some (JVal.str "") <;> simp [h2, h]

theorem normalizeEtv_max (dd : ItemData) (v : JVal) (h : dd.etv_max = some v)
    (hv : v ≠ .str "") : (normalizeEtvData dd).etv_max = some v := by
  rw [normalizeEtvData]
  have h2 : ¬(dd.etv_max = some (JVal.str "")) := by
    simp [h, hv]
  by_cases h1 : dd.etv_min = some (JVal.str "") <;> simp [h1, h2, h, hv]

theorem normalizeEtv_both_empty (dd : ItemData)
    (hmin : dd.etv_min = some (.str "")) (hmax : dd.etv_max = some (.str "")) :
    (normalizeEtvData dd).etv_min = some .null ∧
    (normalizeEtvData dd).etv_max = some .null := by
  rw [normalizeEtvData]
  simp [hmin, hmax]

/-! Spec-facing descriptions of the ETV envelope, used to state the
amended narrowing property. -/

/-- An ETV bound that is either null or a number, as a `JVal`. -/
def etvBoundOf : Option Int → Option JVal
  | none => some .null
  | some m => some (.num m)

/-- Minimum of a prior (possibly absent) bound and the first observed
value. -/
def startMin : Option Int → Int → Int
  | none, e => e
  | some m, e => min m e

/-- Maximum of a prior (possibly absent) bound and the first observed
value. -/
def startMax : Option Int → Int → Int
  | none, e => e
  | some m, e => max m e

/-! Concrete fixtures used by the counterexample and witness theorems. -/

def sPriceDesc : Settings := { sortType := "price_desc", hideDuplicateThumbnail := false }

def sPriceAsc : Settings := { sortType := "price_asc", hideDuplicateThumbnail := false }

def emptyCatalog : Catalog := { imageUrls := [], items := [] }

def dataNullEtv : ItemData :=
  { emptyData with etv_min := some .null, etv_max := some .null }

def dataZeroEtv : ItemData :=
  { emptyData with etv_min := some (.num 0), etv_max := some (.num 0) }

def dataMinOne : ItemData :=
  { emptyData with etv_min := some (.num 1), etv_max := some (.num 1) }

def dataMinHundred : ItemData :=
  { emptyData with etv_min := some (.num 100) }

def dataMinGtMax : ItemData :=
  { emptyData with etv_min := some (.num 10), etv_max := some (.num 2) }

def catalogMinOne : Catalog := (addItemData sPriceDesc 0 emptyCatalog "X" dataMinOne).2

def catalogZeroEtv : Catalog := (addItemData sPriceDesc 0 emptyCatalog "X" dataZeroEtv).2

def catalogNullEtv : Catalog :=
  { imageUrls := [],
    items := [("X", ⟨{ emptyData with etv_min := some .null, etv_max := some .null },
      none, none⟩)] }

def catalogNullZeroDesc : Catalog :=
  (addItemData sPriceDesc 0 (addItemData sPriceDesc 0 emptyCatalog "A" dataNullEtv).2
    "B" dataZeroEtv).2

def catalogNullZeroAsc : Catalog :=
  (addItemData sPriceAsc 0 (addItemData sPriceAsc 0 emptyCatalog "A" dataNullEtv).2
    "B" dataZeroEtv).2

def dataSevenThree : ItemData :=
  { emptyData with etv_min := some (.num 7), etv_max := some (.num 3) }

def catalogSevenThree : Catalog :=
  { imageUrls := [], items := [("X", ⟨dataSevenThree, none, none⟩)] }

def catalogSingleY : Catalog :=
  { imageUrls := [], items := [("Y", ⟨emptyData, none, none⟩)] }

/-- The item as mutated by `markItemUnavailable` (ItemsMgr.js line 197). -/
def markedItem (p : String × Item) : Item :=
  { p.2 with data := { p.2.data with unavailable := some (.boolean true) } }

/-! Claim theorems. -/

/-- C1 counterexample: for the already-seen id "X" whose record holds
`etv_min = 1`, a partial update supplying `etv_min = 100` makes
`addItemData` store 100 — the incoming value overwrites the bound —
whereas the narrowing rule of `updateItemETV` (second conjunct) would
have kept the existing smaller bound 1.  So ETV bounds are NOT exempt
from the shallow-merge overwrite. -/
theorem addItemData_etv_overwrite_counter :
    (findPair "X" ((addItemData sPriceDesc 0 catalogMinOne "X" dataMinHundred).2).items).map
        (fun p => p.2.data.etv_min) = some (some (.num 100)) ∧
    stepEtvMin (some (.num 1)) 100 = some (.num 1) ∧
    some (JVal.num 100) ≠ some (JVal.num 1) := by
  decide

/-- C1 (amended): for every catalog with distinct keys and every
already-seen id, `addItemData` shallow-merges the supplied partial
fields over the existing record: EVERY present field overwrites the old
value, including `estimatedValueMin`/`estimatedValueMax` (no narrowing
on merge); the only ETV special-case is that an empty-string bound is
normalized to null after the merge.  The display element is preserved
and the call reports an update, not a creation. -/
theorem addItemData_merge_overwrites (s : Settings) (now : Int) (c : Catalog)
    (asin : String) (d : ItemData) (p : String × Item) (hn : NodupKeys c)
    (h : findPair asin c.items = some p) :
    ∃ q : String × Item,
      findPair asin ((addItemData s now c asin d).2).items = some q ∧
      q.2.data = normalizeEtvData (mergeData p.2.data d) ∧
      q.2.element = p.2.element ∧
      (∀ v : JVal, d.etv_min = some v → v ≠ .str "" → q.2.data.etv_min = some v) ∧
      (∀ v : JVal, d.etv_max = some v → v ≠ .str "" → q.2.data.etv_max = some v) ∧
      (addItemData s now c asin d).1 = false := by
  rcases addItemData_seen s now c asin d p hn h with ⟨h1, h2, _, _⟩
  refine ⟨_, h2, rfl, rfl, ?_, ?_, h1⟩
  · intro v hv hne
    exact normalizeEtv_min (mergeData p.2.data d) v (by simp [mergeData, hv]) hne
  · intro v hv hne
    exact normalizeEtv_max (mergeData p.2.data d) v (by simp [mergeData, hv]) hne

/-- C1 witness: the amended merge law evaluated at the concrete
two-update run of the counterexample input. -/
theorem addItemData_merge_overwrites_witness :
    ∃ q : String × Item,
      findPair "X" ((addItemData sPriceDesc 0 catalogMinOne "X" dataMinHundred).2).items =
        some q ∧
      q.2.data.etv_min = some (.num 100) := by
  rcases addItemData_merge_overwrites sPriceDesc 0 catalogMinOne "X" dataMinHundred
      ("X", ⟨normalizeEtvData { dataMinOne with dateAdded := some (.num 0) }, none, none⟩)
      (by show (catalogMinOne.items.map Prod.fst).Nodup; decide) (by decide)
      with ⟨q, hq, _, _, hmin, _, _⟩
  exact ⟨q, hq, hmin (.num 100) rfl (by decide)⟩

/-- C2 counterexample: a record whose `etv_min`/`etv_max` are both 0 is
updated by `updateItemETV` with the observation 5: because JavaScript
truthiness treats the stored 0 as absent, the resulting minimum is 5,
not `min 0 5 = 0` — an existing min of 0 IS replaced by a larger
observation. -/
theorem updateItemETV_zero_min_replaced :
    (findPair "X" ((updateItemETV sPriceDesc catalogZeroEtv "X" 5).2).items).map
        (fun p => (p.2.data.etv_min, p.2.data.etv_max)) =
      some (some (.num 5), some (.num 5)) ∧
    some (JVal.num 5) ≠ some (JVal.num 0) := by
  decide

/-- C2 (amended): for every record whose bounds are null or nonzero
numbers and every nonempty sequence of nonzero observations applied via
`updateItemETV`, the resulting `etv_min` is the minimum of the prior
non-null min and all observed values and `etv_max` is the corresponding
maximum.  (The zero exclusions are forced by the counterexample: the
code's truthiness test treats a stored or observed bound of 0 exactly
like an absent one.) -/
theorem updateItemETV_envelope_nonzero (s : Settings) (c : Catalog) (asin : String)
    (p : String × Item) (pm pM : Option Int) (e : Int) (rest : List Int)
    (hn : NodupKeys c) (h : findPair asin c.items = some p)
    (hm : p.2.data.etv_min = etvBoundOf pm) (hM : p.2.data.etv_max = etvBoundOf pM)
    (hm0 : ∀ m, pm = some m → m ≠ 0) (hM0 : ∀ m, pM = some m → m ≠ 0)
    (he : e ≠ 0) (hrest : ∀ x ∈ rest, x ≠ 0) :
    ∃ q : String × Item,
      findPair asin (applyObs s asin c (e :: rest)).items = some q ∧
      q.2.data.etv_min = some (.num (rest.foldl min (startMin pm e))) ∧
      q.2.data.etv_max = some (.num (rest.foldl max (startMax pM e))) := by
  rcases updateItemETV_found s c asin e p hn h with ⟨_, hfind, hnd, _⟩
  have hmin : stepEtvMin p.2.data.etv_min e = some (.num (startMin pm e)) := by
    cases pm with
    | none =>
      rw [hm]
      exact stepEtvMin_absent _ _ (by simp [etvBoundOf, truthyOpt, JVal.truthy])
    | some m =>
      rw [hm]
      exact stepEtvMin_num m e (hm0 m rfl)
  have hmax : stepEtvMax p.2.data.etv_max e = some (.num (startMax pM e)) := by
    cases pM with
    | none =>
      rw [hM]
      exact stepEtvMax_absent _ _ (by simp [etvBoundOf, truthyOpt, JVal.truthy])
    | some m =>
      rw [hM]
      exact stepEtvMax_num m e (hM0 m rfl)
  have hmin0 : startMin pm e ≠ 0 := by
    cases pm with
    | none => exact he
    | some m =>
      rcases min_choice m e with hc | hc <;> rw [startMin, hc]
      · exact hm0 m rfl
      · exact he
  have hmax0 : startMax pM e ≠ 0 := by
    cases pM with
    | none => exact he
    | some m =>
      rcases max_choice m e with hc | hc <;> rw [startMax, hc]
      · exact hM0 m rfl
      · exact he
  rw [applyObs_cons]
  exact applyObs_num s asin rest ((updateItemETV s c asin e).2)
    (asin, ⟨stepItemData p.2.data e, p.2.element, none⟩)
    (startMin pm e) (startMax pM e) hnd hfind
    (by simp [stepItemData, hmin]) (by simp [stepItemData, hmax])
    hmin0 hmax0 hrest

/-- C2 witness: the envelope law at a record with null bounds and the
observation sequence 4, 2, 9, giving min 2 and max 9. -/
theorem updateItemETV_envelope_nonzero_witness :
    ∃ q : String × Item,
      findPair "X" (applyObs sPriceDesc "X" catalogNullEtv [4, 2, 9]).items = some q ∧
      q.2.data.etv_min = some (.num 2) ∧ q.2.data.etv_max = some (.num 9) := by
  rcases updateItemETV_envelope_nonzero sPriceDesc catalogNullEtv "X"
      ("X", ⟨{ emptyData with etv_min := some .null, etv_max := some .null }, none, none⟩)
      none none 4 [2, 9] (by show (catalogNullEtv.items.map Prod.fst).Nodup; decide)
      (by decide) rfl rfl
      (by intro m hmm; cases hmm) (by intro m hmm; cases hmm)
      (by decide) (by decide) with ⟨q, h1, h2, h3⟩
  refine ⟨q, h1, ?_, ?_⟩
  · rw [h2]
    decide
  · rw [h3]
    decide

/-- C3 counterexample: from the buffering state with an empty buffer,
the events e1, e2, e3 followed by the `fetchRecentItemsEnd` sentinel
produce a single batch that CONTAINS the sentinel as its last element
(the code pushes the event onto the buffer before testing its type), so
the batch is not `[e1, e2, e3]`. -/
theorem dataBuffering_batch_contains_sentinel :
    (dataBuffering (dataBuffering (dataBuffering (dataBuffering
        ({ fetch100 := true, dataBuffer := [], sent := [] })
        ⟨"newItem", 1⟩) ⟨"newItem", 2⟩) ⟨"newETV", 3⟩) ⟨"fetchRecentItemsEnd", 0⟩).sent =
      [TabMsg.fetch100Batch
        [⟨"newItem", 1⟩, ⟨"newItem", 2⟩, ⟨"newETV", 3⟩, ⟨"fetchRecentItemsEnd", 0⟩]] ∧
    ([⟨"newItem", 1⟩, ⟨"newItem", 2⟩, ⟨"newETV", 3⟩,
        (⟨"fetchRecentItemsEnd", 0⟩ : BufEvent)] : List BufEvent) ≠
      [⟨"newItem", 1⟩, ⟨"newItem", 2⟩, ⟨"newETV", 3⟩] := by
  decide

/-- C3 (amended): for every buffering state with an empty buffer and
any prior outbox, three non-sentinel events followed by the sentinel
are delivered downstream as exactly one batch `[e1, e2, e3, sentinel]`
in arrival order — the sentinel included as the last element — after
which the buffer is empty and the state is passthrough again. -/
theorem dataBuffering_single_flush (e1 e2 e3 e4 : BufEvent) (m : List TabMsg)
    (h1 : e1.type ≠ "fetchRecentItemsEnd") (h2 : e2.type ≠ "fetchRecentItemsEnd")
    (h3 : e3.type ≠ "fetchRecentItemsEnd") (h4 : e4.type = "fetchRecentItemsEnd") :
    dataBuffering (dataBuffering (dataBuffering (dataBuffering
        ({ fetch100 := true, dataBuffer := [], sent := m }) e1) e2) e3) e4 =
      { fetch100 := false, dataBuffer := [],
        sent := m ++ [TabMsg.fetch100Batch [e1, e2, e3, e4]] } := by
  simp [dataBuffering, h1, h2, h3, h4]

/-- C3 witness: the flush law at three concrete live events and the
sentinel. -/
theorem dataBuffering_single_flush_witness :
    dataBuffering (dataBuffering (dataBuffering (dataBuffering
        ({ fetch100 := true, dataBuffer := [], sent := [TabMsg.single ⟨"ping", 9⟩] })
        ⟨"newItem", 4⟩) ⟨"unavailableItem", 5⟩) ⟨"newETV", 6⟩) ⟨"fetchRecentItemsEnd", 1⟩ =
      { fetch100 := false, dataBuffer := [],
        sent := [TabMsg.single ⟨"ping", 9⟩] ++ [TabMsg.fetch100Batch
          [⟨"newItem", 4⟩, ⟨"unavailableItem", 5⟩, ⟨"newETV", 6⟩,
           ⟨"fetchRecentItemsEnd", 1⟩]] } :=
  dataBuffering_single_flush ⟨"newItem", 4⟩ ⟨"unavailableItem", 5⟩ ⟨"newETV", 6⟩
    ⟨"fetchRecentItemsEnd", 1⟩ [TabMsg.single ⟨"ping", 9⟩]
    (by decide) (by decide) (by decide) rfl

/-- C4: evaluation at the failing input.  Record "A" has
`etv_min = null`, record "B" has `etv_min = 0`, inserted in that order.
Under `price_desc` the code computes `parseFloat(etv_min || -1)` and
`0 || -1` is `-1` because 0 is falsy, so BOTH records get the sort key
-1; the stable sort keeps "A" first, i.e. the null record does NOT sort
strictly below the zero record (the code's own comment says "actual 0
values rank higher").  Under `price_asc` both get key 99999999 and "A"
likewise stays first instead of sorting after "B". -/
theorem sortItems_null_zero_tie :
    catalogNullZeroDesc.items.map Prod.fst = ["A", "B"] ∧
    catalogNullZeroAsc.items.map Prod.fst = ["A", "B"] ∧
    (findPair "A" catalogNullZeroDesc.items).map (fun p => p.2.data.etv_min) =
      some (some .null) ∧
    (findPair "B" catalogNullZeroDesc.items).map (fun p => p.2.data.etv_min) =
      some (some (.num 0)) ∧
    cmpLe sPriceDesc ("A", ⟨dataNullEtv, none, none⟩) ("B", ⟨dataZeroEtv, none, none⟩) = true ∧
    cmpLe sPriceDesc ("B", ⟨dataZeroEtv, none, none⟩) ("A", ⟨dataNullEtv, none, none⟩) = true := by
  decide

/-- C5: storing a fresh item whose `etv_min`/`etv_max` are the empty
string records both bounds as null (empty string is treated as absent,
not zero), and a subsequent `updateItemETV` with value `v` yields a
record with `etv_min = etv_max = v` — for the claim's input, 5, never
NaN or 0. -/
theorem etv_empty_string_to_null (s : Settings) (now : Int) (c : Catalog)
    (asin : String) (d : ItemData) (v : Int) (hn : NodupKeys c)
    (h : findPair asin c.items = none)
    (hmin : d.etv_min = some (.str "")) (hmax : d.etv_max = some (.str "")) :
    ∃ p1 : String × Item,
      findPair asin ((addItemData s now c asin d).2).items = some p1 ∧
      p1.2.data.etv_min = some .null ∧ p1.2.data.etv_max = some .null ∧
      ∃ q : String × Item,
        findPair asin ((updateItemETV s (addItemData s now c asin d).2 asin v).2).items =
          some q ∧
        q.2.data.etv_min = some (.num v) ∧ q.2.data.etv_max = some (.num v) ∧
        (updateItemETV s (addItemData s now c asin d).2 asin v).1 = true := by
  rcases addItemData_fresh s now c asin d hn h with ⟨_, hfind, hnd⟩
  have hboth := normalizeEtv_both_empty { d with dateAdded := some (.num now) }
    (by simpa using hmin) (by simpa using hmax)
  rcases updateItemETV_found s _ asin v _ hnd hfind with ⟨ht, hfind2, _, _⟩
  refine ⟨_, hfind, hboth.1, hboth.2, _, hfind2, ?_, ?_, ht⟩
  · show (stepItemData (normalizeEtvData { d with dateAdded := some (.num now) }) v).etv_min =
      some (.num v)
    rw [stepItemData]
    simp only []
    rw [stepEtvMin_absent _ v (by rw [hboth.1]; rfl)]
  · show (stepItemData (normalizeEtvData { d with dateAdded := some (.num now) }) v).etv_max =
      some (.num v)
    rw [stepItemData]
    simp only []
    rw [stepEtvMax_absent _ v (by rw [hboth.2]; rfl)]

/-- C5 witness: the normalization law at a fresh id, empty-string
bounds, and the observation 5. -/
theorem etv_empty_string_to_null_witness :
    ∃ p1 : String × Item,
      findPair "X" ((addItemData sPriceDesc 0 emptyCatalog "X"
        { emptyData with etv_min := some (.str ""), etv_max := some (.str "") }).2).items =
        some p1 ∧
      p1.2.data.etv_min = some .null ∧ p1.2.data.etv_max = some .null ∧
      ∃ q : String × Item,
        findPair "X" ((updateItemETV sPriceDesc
          (addItemData sPriceDesc 0 emptyCatalog "X"
            { emptyData with etv_min := some (.str ""), etv_max := some (.str "") }).2
          "X" 5).2).items = some q ∧
        q.2.data.etv_min = some (.num 5) ∧ q.2.data.etv_max = some (.num 5) ∧
        (updateItemETV sPriceDesc
          (addItemData sPriceDesc 0 emptyCatalog "X"
            { emptyData with etv_min := some (.str ""), etv_max := some (.str "") }).2
          "X" 5).1 = true :=
  etv_empty_string_to_null sPriceDesc 0 emptyCatalog "X"
    { emptyData with etv_min := some (.str ""), etv_max := some (.str "") } 5
    (by show (emptyCatalog.items.map Prod.fst).Nodup; decide) rfl rfl rfl

/-- C6 counterexample: `addItemData` stores the supplied bounds
verbatim, so a fresh item supplied with `etv_min = 10, etv_max = 2`
ends up with both bounds non-null and `etv_min > etv_max` — the
invariant does not hold after every catalog operation. -/
theorem addItemData_inverted_bounds :
    (findPair "X" ((addItemData sPriceDesc 0 emptyCatalog "X" dataMinGtMax).2).items).map
        (fun p => (p.2.data.etv_min, p.2.data.etv_max)) =
      some (some (.num 10), some (.num 2)) ∧
    ¬ ((10 : Int) ≤ 2) := by
  decide

/-- C6 (amended): `updateItemETV` does establish the invariant: for
every record whose prior bounds are numbers or absent-like (null, empty
string, or missing), the updated record has numeric bounds with
`etv_min ≤ etv_max`, and every other record's data is untouched.  The
invariant can still be broken by `addItemData`, which stores supplied
bounds verbatim (see the counterexample). -/
theorem updateItemETV_bounds_ordered (s : Settings) (c : Catalog) (asin : String)
    (etv : Int) (p : String × Item) (hn : NodupKeys c)
    (h : findPair asin c.items = some p)
    (hm : EtvNumOrAbsent p.2.data.etv_min) (hM : EtvNumOrAbsent p.2.data.etv_max) :
    (∃ (q : String × Item) (a b : Int),
      findPair asin ((updateItemETV s c asin etv).2).items = some q ∧
      q.2.data.etv_min = some (.num a) ∧ q.2.data.etv_max = some (.num b) ∧ a ≤ b) ∧
    (∀ k, k ≠ asin →
      (findPair k ((updateItemETV s c asin etv).2).items).map (fun q => q.2.data) =
        (findPair k c.items).map (fun q => q.2.data)) := by
  rcases updateItemETV_found s c asin etv p hn h with ⟨_, hfind, _, hother⟩
  rcases stepEtvMin_le p.2.data.etv_min etv hm with ⟨a, ha, hae⟩
  rcases stepEtvMax_ge p.2.data.etv_max etv hM with ⟨b, hb, heb⟩
  constructor
  · exact ⟨_, a, b, hfind, by simp [stepItemData, ha], by simp [stepItemData, hb],
      le_trans hae heb⟩
  · intro k hk
    rw [hother k hk]
    cases findPair k c.items <;> simp [dropTile]

/-- C6 witness: the ordering law at a record with prior bounds
`min = 7, max = 3` (an inverted state) and observation 5: the update
yields numeric ordered bounds. -/
theorem updateItemETV_bounds_ordered_witness :
    ∃ (q : String × Item) (a b : Int),
      findPair "X" ((updateItemETV sPriceDesc catalogSevenThree "X" 5).2).items = some q ∧
      q.2.data.etv_min = some (.num a) ∧ q.2.data.etv_max = some (.num b) ∧ a ≤ b :=
  (updateItemETV_bounds_ordered sPriceDesc catalogSevenThree "X" 5
    ("X", ⟨dataSevenThree, none, none⟩)
    (by show (catalogSevenThree.items.map Prod.fst).Nodup; decide)
    rfl (Or.inr (Or.inr (Or.inr ⟨7, rfl⟩))) (Or.inr (Or.inr (Or.inr ⟨3, rfl⟩)))).1

theorem markItemUnavailable_found (c : Catalog) (asin : String) (p : String × Item)
    (hf : findPair asin c.items = some p) :
    markItemUnavailable c asin = { c with items := setPair asin (markedItem p) c.items } := by
  simp only [markItemUnavailable, markedItem, hf]

/-- C7: `markItemUnavailable` on an absent id is a silent no-op (the
catalog is returned unchanged, no error); on a present id it is
idempotent; and marking before `storeItemDOMElement` makes the latter
report `true` (the item was already unavailable when its DOM element
was attached). -/
theorem markUnavailable_before_binding (c : Catalog) (asin : String) (el : Nat) :
    (findPair asin c.items = none → markItemUnavailable c asin = c) ∧
    markItemUnavailable (markItemUnavailable c asin) asin = markItemUnavailable c asin ∧
    (∀ p, findPair asin c.items = some p →
      ∃ c2 : Catalog, storeItemDOMElement (markItemUnavailable c asin) asin el =
        Except.ok (true, c2)) := by
  refine ⟨?_, ?_, ?_⟩
  · intro h
    simp only [markItemUnavailable, h]
  · cases hf : findPair asin c.items with
    | none =>
      have h1 : markItemUnavailable c asin = c := by
        simp only [markItemUnavailable, hf]
      rw [h1, h1]
    | some p =>
      have h1 := markItemUnavailable_found c asin p hf
      have h2 : findPair asin (markItemUnavailable c asin).items =
          some (asin, markedItem p) := by
        rw [h1]
        exact findPair_setPair_self asin _ c.items
      have h3 : markedItem (asin, markedItem p) = markedItem p := by
        simp [markedItem]
      rw [markItemUnavailable_found (markItemUnavailable c asin) asin
        (asin, markedItem p) h2, h3, h1]
      simp [setPair_setPair]
  · intro p hf
    have h1 := markItemUnavailable_found c asin p hf
    have h2 : findPair asin (markItemUnavailable c asin).items =
        some (asin, markedItem p) := by
      rw [h1]
      exact findPair_setPair_self asin _ c.items
    have hres : storeItemDOMElement (markItemUnavailable c asin) asin el =
        Except.ok (true, { markItemUnavailable c asin with items := setPair asin ⟨(markedItem p).data, some el, some el⟩ (markItemUnavailable c asin).items }) := by
      simp only [storeItemDOMElement, h2]
      simp [markedItem]
    exact ⟨_, hres⟩

/-- C7 witness: the race law at a one-item catalog and element handle 1. -/
theorem markUnavailable_before_binding_witness :
    ∃ c2 : Catalog,
      storeItemDOMElement (markItemUnavailable catalogSingleY "Y") "Y" 1 =
        Except.ok (true, c2) :=
  (markUnavailable_before_binding catalogSingleY "Y" 1).2.2
    ("Y", ⟨emptyData, none, none⟩) rfl

/-- C8: evaluation at the failing input.  With the reload timer id 0
pending (5 minutes remaining), a dog-page broadcast installs the
24-hour cooldown via `resetReloadTimer`, but the function only
overwrites the `reloadTimer` variable with the new timer's id — it
never issues a `clearTimeout` for the pending timer, so timer 0 is
still pending after the pause is installed and its firing survives the
pause (the claim requires it to be cancelled first). -/
theorem resetReloadTimer_pending_survives :
    processPauseMessage { pending := [(0, 300000)], reloadTimer := some 0, nextId := 1 }
        "dogpage" =
      { pending := [(0, 300000), (1, 86400000)], reloadTimer := some 1, nextId := 2 } ∧
    (0, 300000) ∈ (processPauseMessage
      { pending := [(0, 300000)], reloadTimer := some 0, nextId := 1 } "dogpage").pending := by
  decide

/-- C9: if the connection is already in flight (`socket_connecting`) or
the socket exists and is connected, `connectWebSocket` makes no further
transport-level attempt; and in every state, two consecutive calls
produce at most one attempt. -/
theorem connectWebSocket_one_attempt (s : WSState) :
    ((s.socketConnecting = true ∨ (s.socketExists = true ∧ s.socketConnected = true)) →
      (connectWebSocket s).connectAttempts = s.connectAttempts) ∧
    (connectWebSocket (connectWebSocket s)).connectAttempts ≤ s.connectAttempts + 1 := by
  obtain ⟨act, ex, conn, cc, ing, n⟩ := s
  cases act <;> cases ex <;> cases conn <;> cases ing <;> cases cc <;>
    simp [connectWebSocket]

def wsConnecting : WSState :=
  { notificationActive := true, socketExists := true, socketConnected := false,
    countryCode := some "de", socketConnecting := true, connectAttempts := 3 }

def wsFresh : WSState :=
  { notificationActive := true, socketExists := false, socketConnected := false,
    countryCode := some "de", socketConnecting := false, connectAttempts := 0 }

/-- C9 witness: the no-duplicate-attempt law at a connecting state and
at a fresh state. -/
theorem connectWebSocket_one_attempt_witness :
    (connectWebSocket wsConnecting).connectAttempts = wsConnecting.connectAttempts ∧
    (connectWebSocket (connectWebSocket wsFresh)).connectAttempts ≤
      wsFresh.connectAttempts + 1 :=
  ⟨(connectWebSocket_one_attempt wsConnecting).1 (Or.inl rfl),
   (connectWebSocket_one_attempt wsFresh).2⟩

/-- The replay order a bulk snapshot must satisfy: between two item
events, dates are ascending; the sentinel is unconstrained. -/
def evLe : StreamEvent → StreamEvent → Prop
  | .newItem p, .newItem q => p.date ≤ q.date
  | _, _ => True

/-- C10: for every bulk snapshot response, `processLast100Items`
(a) ends the replay with the `fetchRecentItemsEnd` sentinel,
(b) emits the sentinel exactly once,
(c) replays exactly the received products whose title and image URL are
both nonempty (a product with an empty title or image URL never reaches
the stream), and
(d) replays item events in ascending date order (oldest first). -/
theorem processLast100Items_replay (l : List Product) :
    (processLast100Items l).getLast? = some .fetchRecentItemsEnd ∧
    (processLast100Items l).count .fetchRecentItemsEnd = 1 ∧
    (∀ p : Product, StreamEvent.newItem p ∈ processLast100Items l ↔
      (p ∈ l ∧ p.img_url ≠ "" ∧ p.title ≠ "")) ∧
    List.Pairwise evLe (processLast100Items l) := by
  have htot : ∀ a b : Product, productDescLe a b = true ∨ productDescLe b a = true := by
    intro a b
    rcases le_total b.date a.date with h | h
    · exact Or.inl (decide_eq_true h)
    · exact Or.inr (decide_eq_true h)
  have htrans : ∀ a b c : Product, productDescLe a b = true → productDescLe b c = true →
      productDescLe a c = true := by
    intro a b c h1 h2
    exact decide_eq_true (le_trans (of_decide_eq_true h2) (of_decide_eq_true h1))
  refine ⟨?_, ?_, ?_, ?_⟩
  · rw [processLast100Items]
    rw [List.getLast?_concat]
  · rw [processLast100Items]
    rw [List.count_append]
    have h0 : ((((sortLe productDescLe l).reverse.filter
        (fun p => !(decide (p.img_url = "") || decide (p.title = "")))).map
          StreamEvent.newItem).count StreamEvent.fetchRecentItemsEnd) = 0 := by
      rw [List.count_eq_zero]
      intro hmem
      rcases List.mem_map.mp hmem with ⟨q, _, hq⟩
      cases hq
    rw [h0]
    rfl
  · intro p
    rw [processLast100Items]
    constructor
    · intro hmem
      rcases List.mem_append.mp hmem with hmem | hmem
      · rcases List.mem_map.mp hmem with ⟨q, hq1, hq2⟩
        have hqp : q = p := by
          injection hq2
        subst hqp
        rcases List.mem_filter.mp hq1 with ⟨hq3, hq4⟩
        have hq5 : ¬(q.img_url = "" ∨ q.title = "") := by
          simpa using hq4
        refine ⟨(sortLe_perm productDescLe l).mem_iff.mp (List.mem_reverse.mp hq3), ?_, ?_⟩
        · exact fun hh => hq5 (Or.inl hh)
        · exact fun hh => hq5 (Or.inr hh)
      · rw [List.mem_singleton] at hmem
        cases hmem
    · rintro ⟨h1, h2, h3⟩
      refine List.mem_append.mpr (Or.inl ?_)
      refine List.mem_map.mpr ⟨p, ?_, rfl⟩
      refine List.mem_filter.mpr ⟨?_, ?_⟩
      · exact List.mem_reverse.mpr ((sortLe_perm productDescLe l).mem_iff.mpr h1)
      · simp [h2, h3]
  · rw [processLast100Items]
    rw [List.pairwise_append]
    refine ⟨?_, List.pairwise_singleton _ _, ?_⟩
    · rw [List.pairwise_map]
      refine List.Pairwise.filter _ ?_
      have hs : (sortLe productDescLe l).Pairwise (fun a b => productDescLe a b = true) :=
        pairwise_sortLe productDescLe htot htrans l
      have hs2 : (sortLe productDescLe l).reverse.Pairwise
          (fun a b : Product => a.date ≤ b.date) := by
        rw [List.pairwise_reverse]
        refine hs.imp ?_
        intro a b hab
        exact of_decide_eq_true hab
      exact hs2.imp (fun hab => hab)
    · intro a ha b hb
      rw [List.mem_singleton] at hb
      subst hb
      rcases List.mem_map.mp ha with ⟨q, _, hq⟩
      subst hq
      trivial

def productAlpha : Product := { title := "alpha", img_url := "u1", date := 7, asin := "A1" }

def productBeta : Product := { title := "", img_url := "u2", date := 3, asin := "A2" }

/-- C10 witness: the replay law at a two-product snapshot, one of which
has an empty title and is therefore skipped. -/
theorem processLast100Items_replay_witness :
    (processLast100Items [productAlpha, productBeta]).getLast? =
      some .fetchRecentItemsEnd ∧
    StreamEvent.newItem productAlpha ∈ processLast100Items [productAlpha, productBeta] ∧
    ¬ (StreamEvent.newItem productBeta ∈ processLast100Items [productAlpha, productBeta]) := by
  refine ⟨(processLast100Items_replay [productAlpha, productBeta]).1, ?_, ?_⟩
  · exact ((processLast100Items_replay [productAlpha, productBeta]).2.2.1 productAlpha).mpr
      ⟨by decide, by decide, by decide⟩
  · intro hmem
    have := ((processLast100Items_replay [productAlpha, productBeta]).2.2.1
      productBeta).mp hmem
    exact absurd this.2.2 (by decide)

end VineHelper
